import Mathlib

/-!
Shallow embedding of the real-time quiz room engine of this repository
(`app/modules/quiz/state.py`, `app/modules/quiz/models.py`, and the
spec-building helper of `app/apis/quiz/main.py`), together with proofs of
the behavioural claims about it.

Modelling conventions:
* Python `datetime` values are modelled as integer timestamps (`Int`);
  `total_seconds()` comparisons become integer comparisons.  ISO-8601
  rendering (`_iso`) is transport formatting and is not modelled.
* Python `dict`s with insertion order (`rooms`, `players`) are modelled as
  association lists (`List (String × _)`) with Python assignment semantics:
  updating an existing key replaces the value in place, a new key is
  appended at the end.
* The `set` `room._answered` is modelled as a duplicate-free `List String`
  (elements are only inserted after a membership test, as in the source).
* `asyncio` tasks are modelled by a `TaskStatus` handle; the ghost field
  `spawned` counts how many times `asyncio.create_task(self._run_room(room))`
  has been executed for the room, so that "does not create a second game
  loop" is expressible.
* Broadcasts are modelled as a list of emitted `Event`s returned alongside
  the new state.
-/

namespace Quiz

/-- `QuizMode` from `app/modules/quiz/models.py`. -/
inductive QuizMode where
  | topic_ai
  | math
  deriving DecidableEq, Repr

/-- `QuizQuestion` from `app/modules/quiz/models.py`: one multiple-choice
question. -/
structure QuizQuestion where
  question : String
  choices : List String
  correct_index : Int
  deriving DecidableEq, Repr

/-- `QuizSpec` from `app/modules/quiz/models.py`: room configuration. -/
structure QuizSpec where
  mode : QuizMode
  topic : Option String := none
  num_questions : Int := 10
  time_per_question_sec : Int := 30
  math_ops : List String := ["add", "div"]
  min_value : Int := 1
  max_value : Int := 99
  division_integer_only : Bool := true
  deriving DecidableEq, Repr

/-- `RoomStatus` from `app/modules/quiz/models.py`. -/
inductive RoomStatus where
  | waiting
  | in_progress
  | ended
  deriving DecidableEq, Repr

/-- `Player` dataclass from `app/modules/quiz/state.py`. -/
structure Player where
  id : String
  name : String
  score : Int := 0
  joined_at : Int := 0
  ready : Bool := false
  deriving DecidableEq, Repr

/-- Status of an `asyncio.Task` handle: `running` means `not task.done()`. -/
inductive TaskStatus where
  | running
  | done
  | cancelled
  deriving DecidableEq, Repr

/-- `Room` dataclass from `app/modules/quiz/state.py`.  The runtime fields
`_runner_task`, `_question_open`, `_answered` are modelled without the
leading underscore; `spawned` is a ghost counter of game-loop task
creations (each execution of `asyncio.create_task` in `_ensure_runner`). -/
structure Room where
  id : String
  spec : QuizSpec
  host_id : String
  created_at : Int := 0
  status : RoomStatus := RoomStatus.waiting
  players : List (String × Player) := []
  questions : List QuizQuestion := []
  current_question_index : Nat := 0
  question_expires_at : Option Int := none
  started_at : Option Int := none
  ended_at : Option Int := none
  last_activity : Int := 0
  runner_task : Option TaskStatus := none
  question_open : Bool := false
  answered : List String := []
  spawned : Nat := 0
  deriving DecidableEq, Repr

/-- `PlayerSummary` from `app/modules/quiz/models.py`. -/
structure PlayerSummary where
  id : String
  name : String
  score : Int := 0
  ready : Bool := false
  deriving DecidableEq, Repr

/-- `RoomState` from `app/modules/quiz/models.py` (timestamps kept as
integers rather than ISO strings). -/
structure RoomState where
  id : String
  spec : QuizSpec
  status : RoomStatus
  host_id : String
  players : List PlayerSummary := []
  current_question_index : Nat := 0
  total_questions : Nat := 0
  question_expires_at : Option Int := none
  created_at : Int := 0
  started_at : Option Int := none
  ended_at : Option Int := none
  ready_count : Nat := 0
  max_players : Nat := 2
  deriving DecidableEq, Repr

/-- Association-list lookup, the model of Python `dict.get`. -/
def alLookup {α : Type} (k : String) : List (String × α) → Option α
  | [] => none
  | (k2, v) :: rest => if k2 = k then some v else alLookup k rest

/-- Association-list insert with Python `dict` assignment semantics:
replace in place if the key exists, otherwise append at the end. -/
def alInsert {α : Type} (k : String) (v : α) : List (String × α) → List (String × α)
  | [] => [(k, v)]
  | (k2, v2) :: rest =>
      if k2 = k then (k, v) :: rest else (k2, v2) :: alInsert k v rest

/-- A scoreboard row as broadcast by the engine: player id, name, score. -/
abbrev ScoreRow := String × String × Int

/-- The `scoreboard` payload built in `submit_answer` and `_end_room`:
`[{player_id, name, score} for p in room.players.values()]`. -/
def scoreboard (room : Room) : List ScoreRow :=
  room.players.map (fun pr => (pr.2.id, pr.2.name, pr.2.score))

/-- `Room.to_state` from `app/modules/quiz/state.py`. -/
def toState (room : Room) : RoomState :=
  { id := room.id
    spec := room.spec
    status := room.status
    host_id := room.host_id
    players := room.players.map
      (fun pr => { id := pr.2.id, name := pr.2.name,
                   score := pr.2.score, ready := pr.2.ready })
    current_question_index := room.current_question_index
    total_questions := room.questions.length
    question_expires_at := room.question_expires_at
    created_at := room.created_at
    started_at := room.started_at
    ended_at := room.ended_at
    ready_count := (room.players.filter (fun pr => pr.2.ready)).length }

/-- The JSON events broadcast to a room's connections.  The four
`answer_result` payload shapes get one constructor each. -/
inductive Event where
  | question (index : Nat) (text : String) (choices : List String) (expires_at : Int)
  | answerCorrect (index : Nat) (player_id : String) (correct_index : Int)
      (sb : List ScoreRow)
  | answerIncorrect (index : Nat) (player_id : String)
  | allAnswered (index : Nat) (correct_index : Int) (sb : List ScoreRow)
  | timeout (index : Nat)
  | roomStateEv (st : RoomState)
  | endEv (st : RoomState) (sb : List ScoreRow)
  deriving DecidableEq, Repr

/-- Whether an event is a `question` broadcast. -/
def Event.isQuestion : Event → Bool
  | Event.question _ _ _ _ => true
  | _ => false

/-- Whether an event is the terminal `end` broadcast. -/
def Event.isEnd : Event → Bool
  | Event.endEv _ _ => true
  | _ => false

/-- Result of `submit_answer`: the returned dict is `{"status": "ignored"}`
or `{"status": "ok", "correct": b}`.  `indexError` models the Python
`IndexError` that `room.questions[room.current_question_index]` would raise
were the index out of range while a question is open (unreachable in the
engine's own usage). -/
inductive SubmitOutcome where
  | ignored
  | ok (correct : Bool)
  | indexError
  deriving DecidableEq, Repr

/-- `QuizManager.submit_answer` (room-level part, i.e. the body executed
under `room._lock` once the room has been found).  Returns the updated
room, the broadcasts performed, and the returned status. -/
def submit_answer (room : Room) (player_id : String) (answer_index : Int)
    (now : Int) : Room × List Event × SubmitOutcome :=
  if room.status ≠ RoomStatus.in_progress ∨ room.question_open = false then
    (room, [], SubmitOutcome.ignored)
  else
    match room.questions[room.current_question_index]? with
    | none => (room, [], SubmitOutcome.indexError)
    | some q =>
      -- ignore duplicate answers for the same question
      if player_id ∈ room.answered then
        (room, [], SubmitOutcome.ignored)
      else
        let room1 : Room := { room with answered := player_id :: room.answered }
        if answer_index = q.correct_index then
          -- first correct closes the question and awards 1 point
          let players1 :=
            match alLookup player_id room1.players with
            | some p => alInsert player_id { p with score := p.score + 1 } room1.players
            | none => room1.players
          let room2 : Room :=
            { room1 with question_open := false, players := players1,
                         last_activity := now }
          (room2,
           [Event.answerCorrect room2.current_question_index player_id
              q.correct_index (scoreboard room2)],
           SubmitOutcome.ok true)
        else
          -- wrong answers do not end question or penalize
          let ev1 := Event.answerIncorrect room1.current_question_index player_id
          if room1.answered.length ≥ room1.players.length then
            -- all players have answered: close and reveal answer
            let room2 : Room :=
              { room1 with question_open := false, last_activity := now }
            (room2,
             [ev1, Event.allAnswered room2.current_question_index q.correct_index
                (scoreboard room2)],
             SubmitOutcome.ok false)
          else
            let room2 : Room := { room1 with last_activity := now }
            (room2, [ev1], SubmitOutcome.ok false)

/-- The question-opening step of `_run_room` (lines 183–207): under the
lock, set the expiry, mark the question open, clear the answered set; then
broadcast the `question` event and touch `last_activity`. -/
def openQuestion (room : Room) (q : QuizQuestion) (now : Int) : Room × Event :=
  let expires := now + room.spec.time_per_question_sec
  ({ room with question_expires_at := some expires, question_open := true,
               answered := [], last_activity := now },
   Event.question room.current_question_index q.question q.choices expires)

/-- `QuizManager._end_room`: mark the room ENDED, stamp `ended_at` and
`last_activity`, broadcast the terminal `end` event. -/
def end_room (room : Room) (now : Int) : Room × Event :=
  let room1 : Room :=
    { room with status := RoomStatus.ended, ended_at := some now,
                last_activity := now }
  (room1, Event.endEv (toState room1) (scoreboard room1))

/-- What the environment does to a room's game loop during one iteration.
`normal` lets the iteration run (submissions, then timeout if still open);
`raiseExc` makes an unexpected exception escape the loop body at this
iteration; `cancel` delivers task cancellation at this iteration's
suspension point. -/
inductive IterSignal where
  | normal
  | raiseExc
  | cancel
  deriving DecidableEq, Repr

/-- The environment of one game-loop iteration: the answer submissions
(player id, answer index) processed through `submit_answer` while the loop
polls, and the control signal. -/
structure Iter where
  subs : List (String × Int) := []
  signal : IterSignal := IterSignal.normal
  deriving Repr

/-- Process a batch of concurrent submissions in arrival order (each one
serialized through the room's lock, as in `submit_answer`). -/
def processSubs (room : Room) (subs : List (String × Int)) (now : Int) :
    Room × List Event :=
  match subs with
  | [] => (room, [])
  | (pid, ans) :: rest =>
      let r1 := submit_answer room pid ans now
      let r2 := processSubs r1.1 rest now
      (r2.1, r1.2.1 ++ r2.2)

/-- How the game loop of a room terminated. -/
inductive LoopResult where
  | ended
  | cancelled
  | fuelOut
  deriving DecidableEq, Repr

/-- Head of the environment list, defaulting to a quiet iteration (no
submissions, no signal) once the list is exhausted. -/
def headIter : List Iter → Iter × List Iter
  | [] => ({ }, [])
  | it :: rest => (it, rest)

/-- The tail of one loop iteration of `_run_room`: if the question is
still open at the deadline, close it (lines 219–220 and the
`last_activity` touch), then advance the index after the debounce pause
(lines 237–243). -/
def iterAdvance (room2 : Room) (now : Int) : Room :=
  let room3 :=
    if room2.question_open then
      { room2 with question_open := false, last_activity := now }
    else room2
  { room3 with current_question_index := room3.current_question_index + 1,
               last_activity := now }

/-- The `answer_result`/`timeout` broadcast of the deadline path, emitted
only when the question is still open when the deadline passes. -/
def timeoutEvents (room2 : Room) : List Event :=
  if room2.question_open then [Event.timeout room2.current_question_index]
  else []

/-- Fuel-indexed body of `QuizManager._run_room`.  Each `while True`
iteration: if the question list is exhausted, call `_end_room` and return;
otherwise announce the current question, process the submissions that
arrive while polling, time the question out if it is still open at the
deadline, then advance the index and broadcast a `room_state` snapshot.
The surrounding `try` converts an escaping exception into `_end_room`
(`raiseExc`) and swallows cancellation (`cancel`).  Fuel only limits the
recursion depth of the model; `run_room` supplies enough for the loop to
finish. -/
def runRoomFuel : Nat → Room → List Iter → Int → Room × List Event × LoopResult
  | 0, room, _, _ => (room, [], LoopResult.fuelOut)
  | Nat.succ fuel, room, envs, now =>
      let he := headIter envs
      match he.1.signal with
      | IterSignal.cancel => (room, [], LoopResult.cancelled)
      | IterSignal.raiseExc =>
          let re := end_room room now
          (re.1, [re.2], LoopResult.ended)
      | IterSignal.normal =>
          if _h : room.current_question_index < room.questions.length then
            let q := room.questions.get ⟨room.current_question_index, _h⟩
            let oq := openQuestion room q now
            let ps := processSubs oq.1 he.1.subs now
            let room4 := iterAdvance ps.1 now
            let rest := runRoomFuel fuel room4 he.2 now
            (rest.1,
             oq.2 :: (ps.2 ++ timeoutEvents ps.1
               ++ [Event.roomStateEv (toState room4)]) ++ rest.2.1,
             rest.2.2)
          else
            let re := end_room room now
            (re.1, [re.2], LoopResult.ended)

/-- `QuizManager._run_room`: run the loop with enough fuel to exhaust the
question list. -/
def run_room (room : Room) (envs : List Iter) (now : Int) :
    Room × List Event × LoopResult :=
  runRoomFuel (room.questions.length - room.current_question_index + 1)
    room envs now

/-- `QuizManager` state: the process-wide room table and the sweeper
configuration (`start()` clamps them with `max(60, ·)` / `max(5, ·)`;
defaults shown). -/
structure Manager where
  rooms : List (String × Room) := []
  idle_seconds : Int := 600
  sweep_interval : Int := 60
  deriving DecidableEq, Repr

/-- The freshly constructed manager (`QuizManager.__init__`). -/
def initManager : Manager := { }

/-- `QuizManager.create_room`: build the host player and the room, insert
the host as sole player, register the room, touch `last_activity`.  The
random ids produced by `_short_id()` are passed in as parameters. -/
def create_room (m : Manager) (room_id host_id host_name : String)
    (spec : QuizSpec) (now : Int) : Manager × Room × Player :=
  let host : Player := { id := host_id, name := host_name, joined_at := now }
  let room : Room :=
    { id := room_id, spec := spec, host_id := host_id, created_at := now,
      players := [(host_id, host)], last_activity := now }
  ({ m with rooms := alInsert room_id room m.rooms }, room, host)

/-- `QuizManager.join_room`: `room_not_found` on an unknown id, `room_full`
when the room already has two players, otherwise insert a new player and
touch `last_activity`.  The fresh player id is a parameter. -/
def join_room (m : Manager) (room_id : String) (name pid : String)
    (now : Int) : Except String (Manager × Player) :=
  match alLookup room_id m.rooms with
  | none => Except.error "room_not_found"
  | some room =>
      if room.players.length ≥ 2 then Except.error "room_full"
      else
        let p : Player := { id := pid, name := name, joined_at := now }
        let room1 : Room :=
          { room with players := alInsert pid p room.players,
                      last_activity := now }
        Except.ok ({ m with rooms := alInsert room_id room1 m.rooms }, p)

/-- `QuizManager._ensure_runner`: if a runner task exists and is not done,
keep it; otherwise create a new game-loop task (counted by `spawned`). -/
def ensure_runner (room : Room) : Room :=
  match room.runner_task with
  | some TaskStatus.running => room
  | _ => { room with runner_task := some TaskStatus.running,
                     spawned := room.spawned + 1 }

/-- `QuizManager.start_room`: `room_not_found` on an unknown id; a silent
no-op when the room is not WAITING; otherwise assign the questions, reset
the index, stamp `started_at`, move to IN_PROGRESS and ensure a runner. -/
def start_room (m : Manager) (room_id : String) (questions : List QuizQuestion)
    (now : Int) : Except String Manager :=
  match alLookup room_id m.rooms with
  | none => Except.error "room_not_found"
  | some room =>
      if room.status ≠ RoomStatus.waiting then Except.ok m
      else
        let room1 : Room :=
          { room with questions := questions, current_question_index := 0,
                      started_at := some now,
                      status := RoomStatus.in_progress, last_activity := now }
        let room2 := ensure_runner room1
        Except.ok { m with rooms := alInsert room_id room2 m.rooms }

/-- `QuizManager.set_ready` (state part): `room_not_found` /
`player_not_found` errors, otherwise set the player's ready flag and touch
`last_activity`.  (The subsequent `room_state` broadcast and the
auto-start check delegate to `start_room`, modelled separately.) -/
def set_ready (m : Manager) (room_id player_id : String) (ready : Bool)
    (now : Int) : Except String Manager :=
  match alLookup room_id m.rooms with
  | none => Except.error "room_not_found"
  | some room =>
      match alLookup player_id room.players with
      | none => Except.error "player_not_found"
      | some p =>
          let room1 : Room :=
            { room with
                players := alInsert player_id { p with ready := ready } room.players,
                last_activity := now }
          Except.ok { m with rooms := alInsert room_id room1 m.rooms }

/-- `CreateRoomRequest` from `app/apis/quiz/schemas.py`. -/
structure CreateRoomRequest where
  host_name : String
  mode : QuizMode
  topic : Option String := none
  num_questions : Int := 10
  time_per_question_sec : Int := 30
  math_ops : List String := ["add", "div"]
  min_value : Int := 1
  max_value : Int := 99
  division_integer_only : Bool := true
  deriving DecidableEq, Repr

/-- Python truthiness fallback `x or d` for integers: `d` when `x == 0`. -/
def orInt (x d : Int) : Int := if x = 0 then d else x

/-- `_build_spec` from `app/apis/quiz/main.py`: the only code path that
builds the `QuizSpec` of a room.  Note `max(5, int(req.time_per_question_sec
or 30))`. -/
def build_spec (req : CreateRoomRequest) : QuizSpec :=
  { mode := req.mode
    topic := req.topic
    num_questions := max 1 (orInt req.num_questions 10)
    time_per_question_sec := max 5 (orInt req.time_per_question_sec 30)
    math_ops := if req.math_ops = [] then ["add", "div"] else req.math_ops
    min_value := orInt req.min_value 1
    max_value := orInt req.max_value 99
    division_integer_only := req.division_integer_only }

/-- The sweep decision of `_cleanup_loop` for one room: an ENDED room with
`ended_at` set is deleted exactly when `now - ended_at` exceeds the
retention window (the `elif` is skipped for it); any other room is deleted
when idle beyond the window with zero live connections. -/
def shouldDelete (idle_seconds now : Int) (connections : Nat) (room : Room) :
    Bool :=
  match room.status, room.ended_at with
  | RoomStatus.ended, some t => decide (now - t > idle_seconds)
  | _, _ =>
      decide (now - room.last_activity > idle_seconds) && decide (connections = 0)

/-- The runner-cancellation performed on each room picked for deletion:
`if room._runner_task and not room._runner_task.done(): cancel()`. -/
def cancelRunner (room : Room) : Room :=
  match room.runner_task with
  | some TaskStatus.running => { room with runner_task := some TaskStatus.cancelled }
  | _ => room

/-- One pass of `_cleanup_loop` over the room table at time `now`, with
`connections room_id` the live-connection count of the Connection
Registry.  Returns the surviving manager and the deleted rooms (each with
its runner cancelled first, as in the source). -/
def cleanup_pass (m : Manager) (now : Int) (connections : String → Nat) :
    Manager × List (String × Room) :=
  let deleted :=
    (m.rooms.filter
        (fun pr => shouldDelete m.idle_seconds now (connections pr.1) pr.2)).map
      (fun pr => (pr.1, cancelRunner pr.2))
  let kept :=
    m.rooms.filter
      (fun pr => ! shouldDelete m.idle_seconds now (connections pr.1) pr.2)
  ({ m with rooms := kept }, deleted)

/-- One externally triggered operation on the manager, as exposed by the
API/WS layer.  `create` builds its spec through `_build_spec` (the only
call site of `create_room`); `runLoop` executes the game-loop task of a
room; `sweep` is one pass of the idle sweeper. -/
inductive Op where
  | create (room_id host_id : String) (req : CreateRoomRequest) (now : Int)
  | join (room_id name pid : String) (now : Int)
  | start (room_id : String) (questions : List QuizQuestion) (now : Int)
  | submit (room_id player_id : String) (answer_index : Int) (now : Int)
  | setReady (room_id player_id : String) (ready : Bool) (now : Int)
  | runLoop (room_id : String) (envs : List Iter) (now : Int)
  | sweep (now : Int) (connections : String → Nat)

/-- Apply one operation to the manager (errors and broadcasts dropped:
only the resulting state matters here). -/
def applyOp (m : Manager) : Op → Manager
  | Op.create room_id host_id req now =>
      (create_room m room_id host_id req.host_name (build_spec req) now).1
  | Op.join room_id name pid now =>
      match join_room m room_id name pid now with
      | Except.ok r => r.1
      | Except.error _ => m
  | Op.start room_id questions now =>
      match start_room m room_id questions now with
      | Except.ok m1 => m1
      | Except.error _ => m
  | Op.submit room_id player_id answer_index now =>
      match alLookup room_id m.rooms with
      | none => m
      | some room =>
          let r := submit_answer room player_id answer_index now
          { m with rooms := alInsert room_id r.1 m.rooms }
  | Op.setReady room_id player_id ready now =>
      match set_ready m room_id player_id ready now with
      | Except.ok m1 => m1
      | Except.error _ => m
  | Op.runLoop room_id envs now =>
      match alLookup room_id m.rooms with
      | none => m
      | some room =>
          let r := run_room room envs now
          { m with rooms := alInsert room_id r.1 m.rooms }
  | Op.sweep now connections => (cleanup_pass m now connections).1

/-- Apply a sequence of operations to the freshly constructed manager. -/
def applyOps (ops : List Op) : Manager :=
  ops.foldl applyOp initManager

/-- The invariants every room reachable through the manager's operations
satisfies: at most two players, all scores zero while the room is still
WAITING, and a per-question time limit of at least five seconds. -/
def GoodRoom (r : Room) : Prop :=
  r.players.length ≤ 2 ∧
  (r.status = RoomStatus.waiting → ∀ pr ∈ r.players, pr.2.score = 0) ∧
  5 ≤ r.spec.time_per_question_sec

/-! ### Concrete fixtures used by the witness theorems -/

/-- The sample question of the spec's test scenario. -/
def sampleQ : QuizQuestion :=
  { question := "2+2", choices := ["3", "4", "5", "6"], correct_index := 1 }

def samplePlayerA : Player := { id := "aaaaaa", name := "A" }

def samplePlayerB : Player := { id := "bbbbbb", name := "B" }

/-- A two-player room in progress with one open question. -/
def sampleRoom : Room :=
  { id := "r00001", spec := { mode := QuizMode.math, time_per_question_sec := 5 },
    host_id := "aaaaaa", status := RoomStatus.in_progress,
    players := [("aaaaaa", samplePlayerA), ("bbbbbb", samplePlayerB)],
    questions := [sampleQ], current_question_index := 0,
    question_open := true, runner_task := some TaskStatus.running, spawned := 1 }

/-- Same room after player B has already answered the open question. -/
def sampleRoomDup : Room := { sampleRoom with answered := ["bbbbbb"] }

/-- A one-player WAITING room, as `create_room` followed by nothing else
leaves it. -/
def waitingRoom : Room :=
  { id := "r00002", spec := { mode := QuizMode.math, time_per_question_sec := 5 },
    host_id := "aaaaaa", players := [("aaaaaa", samplePlayerA)] }

def waitingManager : Manager := { rooms := [("r00002", waitingRoom)] }

/-- A WAITING room that already holds two players. -/
def fullRoom : Room :=
  { id := "r00003", spec := { mode := QuizMode.math }, host_id := "aaaaaa",
    players := [("aaaaaa", samplePlayerA), ("bbbbbb", samplePlayerB)] }

def fullManager : Manager := { rooms := [("r00003", fullRoom)] }

/-- A room-creation request with all defaults. -/
def demoReq : CreateRoomRequest := { host_name := "A", mode := QuizMode.math }

/-- One create-room call against the fresh manager. -/
def demoOps : List Op := [Op.create "r00001" "aaaaaa" demoReq 0]

/-- The room that `demoOps` leaves in the registry. -/
def demoCreatedRoom : Room :=
  { id := "r00001", spec := build_spec demoReq, host_id := "aaaaaa",
    created_at := 0,
    players := [("aaaaaa", { id := "aaaaaa", name := "A", joined_at := 0 })],
    last_activity := 0 }

/-- A creation request asking for a one-second question timer. -/
def shortTimerReq : CreateRoomRequest :=
  { host_name := "B", mode := QuizMode.topic_ai, time_per_question_sec := 1 }

/-- An ENDED room whose retention window has expired by `now = 1000`. -/
def endedRoom : Room :=
  { id := "r00004", spec := { mode := QuizMode.math }, host_id := "aaaaaa",
    status := RoomStatus.ended, ended_at := some 100, last_activity := 100,
    players := [("aaaaaa", samplePlayerA)],
    runner_task := some TaskStatus.running, spawned := 1 }

def sweepManager : Manager := { rooms := [("r00004", endedRoom)] }

/-! ### Association-list lemmas -/

theorem alLookup_alInsert_self {α : Type} (k : String) (v : α) :
    ∀ l : List (String × α), alLookup k (alInsert k v l) = some v := by
  intro l
  induction l with
  | nil => simp [alInsert, alLookup]
  | cons hd tl ih =>
      by_cases h : hd.1 = k
      · simp [alInsert, alLookup, h]
      · simpa [alInsert, alLookup, h] using ih

theorem alLookup_alInsert_ne {α : Type} {k k2 : String} (v : α)
    (hne : k2 ≠ k) :
    ∀ l : List (String × α), alLookup k2 (alInsert k v l) = alLookup k2 l := by
  intro l
  induction l with
  | nil =>
      have h3 : ¬ k = k2 := fun h => hne (Eq.symm h)
      simp [alInsert, alLookup, h3]
  | cons hd tl ih =>
      by_cases h : hd.1 = k
      · subst h
        have h3 : ¬ hd.1 = k2 := fun h2 => hne h2.symm
        simp [alInsert, alLookup, h3]
      · simp only [alInsert, if_neg h, alLookup]
        by_cases h2 : hd.1 = k2 <;> simp [h2, ih]

theorem alInsert_length_of_lookup {α : Type} {k : String} {v0 : α} (v : α) :
    ∀ {l : List (String × α)}, alLookup k l = some v0 →
      (alInsert k v l).length = l.length := by
  intro l
  induction l with
  | nil => intro h; simp [alLookup] at h
  | cons hd tl ih =>
      intro h
      by_cases h2 : hd.1 = k
      · simp [alInsert, h2]
      · simp only [alLookup, if_neg h2] at h
        simp [alInsert, if_neg h2, ih h]

theorem alInsert_length_le {α : Type} (k : String) (v : α) :
    ∀ l : List (String × α), (alInsert k v l).length ≤ l.length + 1 := by
  intro l
  induction l with
  | nil => simp [alInsert]
  | cons hd tl ih =>
      by_cases h : hd.1 = k
      · simp [alInsert, h]
      · simp only [alInsert, if_neg h, List.length_cons]
        omega

theorem mem_alInsert {α : Type} {k k2 : String} {v v2 : α} :
    ∀ {l : List (String × α)}, (k2, v2) ∈ alInsert k v l →
      (k2 = k ∧ v2 = v) ∨ (k2, v2) ∈ l := by
  intro l
  induction l with
  | nil =>
      intro h
      simp [alInsert] at h
      exact Or.inl h
  | cons hd tl ih =>
      intro h
      by_cases h2 : hd.1 = k
      · rw [alInsert, if_pos h2] at h
        rcases List.mem_cons.mp h with h3 | h3
        · exact Or.inl ⟨congrArg Prod.fst h3, congrArg Prod.snd h3⟩
        · exact Or.inr (List.mem_cons_of_mem _ h3)
      · rw [alInsert, if_neg h2] at h
        rcases List.mem_cons.mp h with h3 | h3
        · exact Or.inr (h3 ▸ List.mem_cons_self _ _)
        · rcases ih h3 with h4 | h4
          · exact Or.inl h4
          · exact Or.inr (List.mem_cons_of_mem _ h4)

theorem alLookup_mem {α : Type} {k : String} {v : α} :
    ∀ {l : List (String × α)}, alLookup k l = some v → (k, v) ∈ l := by
  intro l
  induction l with
  | nil => intro h; simp [alLookup] at h
  | cons hd tl ih =>
      intro h
      by_cases h2 : hd.1 = k
      · rw [alLookup, if_pos h2] at h
        subst h2
        obtain rfl : hd.2 = v := Option.some_injective _ h
        exact List.mem_cons_self _ _
      · rw [alLookup, if_neg h2] at h
        exact List.mem_cons_of_mem _ (ih h)

/-! ### Preservation lemmas -/

/-- `submit_answer` never touches the question list, the current index,
the status or the spec, never shrinks or grows the roster, and is the
identity on a room that is not IN_PROGRESS. -/
theorem submit_answer_preserves (room : Room) (pid : String) (ans now : Int) :
    (submit_answer room pid ans now).1.questions = room.questions ∧
    (submit_answer room pid ans now).1.current_question_index =
      room.current_question_index ∧
    (submit_answer room pid ans now).1.status = room.status ∧
    (submit_answer room pid ans now).1.spec = room.spec ∧
    (submit_answer room pid ans now).1.players.length = room.players.length := by
  unfold submit_answer
  dsimp only
  split
  · exact ⟨rfl, rfl, rfl, rfl, rfl⟩
  split
  · exact ⟨rfl, rfl, rfl, rfl, rfl⟩
  split
  · exact ⟨rfl, rfl, rfl, rfl, rfl⟩
  split
  · refine ⟨rfl, rfl, rfl, rfl, ?_⟩
    split
    · rename_i p hp
      simpa using alInsert_length_of_lookup _ hp
    · rfl
  split
  · exact ⟨rfl, rfl, rfl, rfl, rfl⟩
  · exact ⟨rfl, rfl, rfl, rfl, rfl⟩

/-- A submission to a room that is not IN_PROGRESS is a no-op. -/
theorem submit_answer_not_in_progress (room : Room) (pid : String)
    (ans now : Int) (h : room.status ≠ RoomStatus.in_progress) :
    submit_answer room pid ans now = (room, [], SubmitOutcome.ignored) := by
  rw [submit_answer, if_pos (Or.inl h)]

/-- `processSubs` enjoys the same preservations as `submit_answer`. -/
theorem processSubs_preserves (subs : List (String × Int)) :
    ∀ (room : Room) (now : Int),
      (processSubs room subs now).1.questions = room.questions ∧
      (processSubs room subs now).1.current_question_index =
        room.current_question_index ∧
      (processSubs room subs now).1.status = room.status ∧
      (processSubs room subs now).1.spec = room.spec ∧
      (processSubs room subs now).1.players.length = room.players.length := by
  induction subs with
  | nil => intro room now; exact ⟨rfl, rfl, rfl, rfl, rfl⟩
  | cons hd tl ih =>
      intro room now
      have h1 := submit_answer_preserves room hd.1 hd.2 now
      have h2 := ih (submit_answer room hd.1 hd.2 now).1 now
      rw [processSubs]
      exact ⟨h2.1.trans h1.1, h2.2.1.trans h1.2.1, h2.2.2.1.trans h1.2.2.1,
        h2.2.2.2.1.trans h1.2.2.2.1, h2.2.2.2.2.trans h1.2.2.2.2⟩

/-- On a room that is not IN_PROGRESS, every submission in the batch is
ignored and the room is returned unchanged. -/
theorem processSubs_not_in_progress (subs : List (String × Int)) :
    ∀ (room : Room) (now : Int), room.status ≠ RoomStatus.in_progress →
      (processSubs room subs now).1 = room := by
  induction subs with
  | nil => intro room now _; rfl
  | cons hd tl ih =>
      intro room now h
      rw [processSubs]
      simp only [submit_answer_not_in_progress room hd.1 hd.2 now h]
      exact ih room now h

/-- `ensure_runner` only touches the runner bookkeeping. -/
theorem ensure_runner_preserves (room : Room) :
    (ensure_runner room).questions = room.questions ∧
    (ensure_runner room).current_question_index = room.current_question_index ∧
    (ensure_runner room).status = room.status ∧
    (ensure_runner room).spec = room.spec ∧
    (ensure_runner room).players = room.players ∧
    (ensure_runner room).runner_task = some TaskStatus.running ∧
    (ensure_runner room).spawned =
      (if room.runner_task = some TaskStatus.running then room.spawned
       else room.spawned + 1) ∧
    (ensure_runner room).started_at = room.started_at := by
  unfold ensure_runner
  match h : room.runner_task with
  | some TaskStatus.running => simp [h]
  | some TaskStatus.done => simp [h]
  | some TaskStatus.cancelled => simp [h]
  | none => simp [h]

/-- `openQuestion` only touches the expiry, the open flag, the answered
set and `last_activity`. -/
theorem openQuestion_preserves (room : Room) (q : QuizQuestion) (now : Int) :
    (openQuestion room q now).1.players = room.players ∧
    (openQuestion room q now).1.questions = room.questions ∧
    (openQuestion room q now).1.current_question_index =
      room.current_question_index ∧
    (openQuestion room q now).1.status = room.status ∧
    (openQuestion room q now).1.spec = room.spec ∧
    (openQuestion room q now).1.answered = [] :=
  ⟨rfl, rfl, rfl, rfl, rfl, rfl⟩

/-- `iterAdvance` advances the index by one and touches nothing else but
the open flag and `last_activity`. -/
theorem iterAdvance_preserves (room2 : Room) (now : Int) :
    (iterAdvance room2 now).players = room2.players ∧
    (iterAdvance room2 now).questions = room2.questions ∧
    (iterAdvance room2 now).status = room2.status ∧
    (iterAdvance room2 now).spec = room2.spec ∧
    (iterAdvance room2 now).current_question_index =
      room2.current_question_index + 1 := by
  cases h : room2.question_open <;> simp [iterAdvance, h]

/-- Preservations of the game loop: the roster size and the spec never
change; the status either stays what it was or becomes ENDED; a room that
is not IN_PROGRESS keeps its exact roster. -/
theorem runRoomFuel_preserves : ∀ (fuel : Nat) (room : Room) (envs : List Iter)
    (now : Int),
    (runRoomFuel fuel room envs now).1.players.length = room.players.length ∧
    (runRoomFuel fuel room envs now).1.spec = room.spec ∧
    ((runRoomFuel fuel room envs now).1.status = room.status ∨
      (runRoomFuel fuel room envs now).1.status = RoomStatus.ended) ∧
    (room.status ≠ RoomStatus.in_progress →
      (runRoomFuel fuel room envs now).1.players = room.players) := by
  intro fuel
  induction fuel with
  | zero => intro room envs now; exact ⟨rfl, rfl, Or.inl rfl, fun _ => rfl⟩
  | succ fuel ih =>
      intro room envs now
      rw [runRoomFuel]
      match hsig : (headIter envs).1.signal with
      | IterSignal.cancel => exact ⟨rfl, rfl, Or.inl rfl, fun _ => rfl⟩
      | IterSignal.raiseExc =>
          exact ⟨rfl, rfl, Or.inr rfl, fun _ => rfl⟩
      | IterSignal.normal =>
          dsimp only
          split
          · rename_i hlt
            have hoq := openQuestion_preserves room
              (room.questions.get ⟨room.current_question_index, hlt⟩) now
            have hsub := processSubs_preserves (headIter envs).1.subs
              (openQuestion room
                (room.questions.get ⟨room.current_question_index, hlt⟩) now).1 now
            set room2 := (processSubs (openQuestion room
              (room.questions.get ⟨room.current_question_index, hlt⟩) now).1
              (headIter envs).1.subs now).1 with hroom2
            have hadv := iterAdvance_preserves room2 now
            have hrec := ih (iterAdvance room2 now) (headIter envs).2 now
            refine ⟨?_, ?_, ?_, ?_⟩
            · rw [hrec.1, hadv.1, hsub.2.2.2.2, hoq.1]
            · rw [hrec.2.1, hadv.2.2.2.1, hsub.2.2.2.1, hoq.2.2.2.2.1]
            · rcases hrec.2.2.1 with h | h
              · exact Or.inl (by
                  rw [h, hadv.2.2.1, hsub.2.2.1, hoq.2.2.2.1])
              · exact Or.inr h
            · intro hnp
              have hst2 : room2.status = room.status := by
                rw [hsub.2.2.1, hoq.2.2.2.1]
              have h2 : room2.players = room.players := by
                have h3 := processSubs_not_in_progress (headIter envs).1.subs
                  (openQuestion room
                    (room.questions.get ⟨room.current_question_index, hlt⟩)
                      now).1 now (by rw [hoq.2.2.2.1]; exact hnp)
                rw [hroom2, h3, hoq.1]
              have hnp4 : (iterAdvance room2 now).status ≠
                  RoomStatus.in_progress := by
                rw [hadv.2.2.1, hst2]; exact hnp
              rw [hrec.2.2.2 hnp4, hadv.1, h2]
          · exact ⟨rfl, rfl, Or.inr rfl, fun _ => rfl⟩

/-! ### Inversion lemmas for the manager operations -/

theorem join_room_cases (m : Manager) (room_id name pid : String) (now : Int) :
    (alLookup room_id m.rooms = none ∧
      join_room m room_id name pid now = Except.error "room_not_found") ∨
    (∃ room, alLookup room_id m.rooms = some room ∧ room.players.length ≥ 2 ∧
      join_room m room_id name pid now = Except.error "room_full") ∨
    (∃ room, alLookup room_id m.rooms = some room ∧ room.players.length < 2 ∧
      join_room m room_id name pid now = Except.ok
        ({ m with rooms := (alInsert room_id
            ({ room with
               players := (alInsert pid
                 ({ id := pid, name := name, joined_at := now }) room.players),
               last_activity := now }) m.rooms) },
         { id := pid, name := name, joined_at := now })) := by
  unfold join_room
  cases hl : alLookup room_id m.rooms with
  | none => exact Or.inl ⟨rfl, rfl⟩
  | some room =>
      by_cases hfull : room.players.length ≥ 2
      · refine Or.inr (Or.inl ⟨room, rfl, hfull, ?_⟩)
        dsimp only
        rw [if_pos hfull]
      · refine Or.inr (Or.inr ⟨room, rfl, by omega, ?_⟩)
        dsimp only
        rw [if_neg hfull]

theorem start_room_cases (m : Manager) (room_id : String)
    (qs : List QuizQuestion) (now : Int) :
    (alLookup room_id m.rooms = none ∧
      start_room m room_id qs now = Except.error "room_not_found") ∨
    (∃ room, alLookup room_id m.rooms = some room ∧
      room.status ≠ RoomStatus.waiting ∧
      start_room m room_id qs now = Except.ok m) ∨
    (∃ room, alLookup room_id m.rooms = some room ∧
      room.status = RoomStatus.waiting ∧
      start_room m room_id qs now = Except.ok
        { m with rooms := (alInsert room_id
            (ensure_runner
              ({ room with
                 questions := qs, current_question_index := 0,
                 started_at := some now, status := RoomStatus.in_progress,
                 last_activity := now })) m.rooms) }) := by
  unfold start_room
  cases hl : alLookup room_id m.rooms with
  | none => exact Or.inl ⟨rfl, rfl⟩
  | some room =>
      by_cases hw : room.status = RoomStatus.waiting
      · refine Or.inr (Or.inr ⟨room, rfl, hw, ?_⟩)
        dsimp only
        rw [if_neg (by simp [hw])]
      · refine Or.inr (Or.inl ⟨room, rfl, hw, ?_⟩)
        dsimp only
        rw [if_pos hw]

theorem set_ready_cases (m : Manager) (room_id player_id : String)
    (ready : Bool) (now : Int) :
    (set_ready m room_id player_id ready now = Except.error "room_not_found") ∨
    (set_ready m room_id player_id ready now = Except.error "player_not_found") ∨
    (∃ room p, alLookup room_id m.rooms = some room ∧
      alLookup player_id room.players = some p ∧
      set_ready m room_id player_id ready now = Except.ok
        { m with rooms := (alInsert room_id
            ({ room with
               players :=
                 (alInsert player_id ({ p with ready := ready }) room.players),
               last_activity := now }) m.rooms) }) := by
  unfold set_ready
  cases hl : alLookup room_id m.rooms with
  | none => exact Or.inl rfl
  | some room =>
      dsimp only
      cases hp : alLookup player_id room.players with
      | none => exact Or.inr (Or.inl rfl)
      | some p =>
          refine Or.inr (Or.inr ⟨room, p, rfl, hp, ?_⟩)
          dsimp only

/-! ### Reachability invariants of the manager state machine -/

/-- Induction principle over operation sequences. -/
theorem applyOps_inv {P : Manager → Prop} (h0 : P initManager)
    (hstep : ∀ m op, P m → P (applyOp m op)) :
    ∀ ops : List Op, P (applyOps ops) := by
  intro ops
  have h : ∀ m : Manager, P m → P (ops.foldl applyOp m) := by
    induction ops with
    | nil => intro m hm; exact hm
    | cons op rest ih => intro m hm; exact ih (applyOp m op) (hstep m op hm)
  exact h initManager h0

/-- Every reachable room is a `GoodRoom`. -/
theorem goodRoom_reachable :
    ∀ (ops : List Op) (rid : String) (r : Room),
      (rid, r) ∈ (applyOps ops).rooms → GoodRoom r := by
  have key : ∀ ops : List Op,
      ∀ rid r, (rid, r) ∈ (applyOps ops).rooms → GoodRoom r := by
    refine applyOps_inv
      (P := fun m => ∀ rid r, (rid, r) ∈ m.rooms → GoodRoom r) ?_ ?_
    · intro rid r h
      simp [initManager] at h
    · intro m op hm
      cases op with
      | create room_id host_id req now =>
          intro rid r hmem
          dsimp only [applyOp, create_room] at hmem
          rcases mem_alInsert hmem with ⟨h1, h2⟩ | h
          · subst h2
            refine ⟨by simp, fun _ pr hpr => ?_, ?_⟩
            · simp only [List.mem_singleton] at hpr
              rw [hpr]
            · exact le_max_left 5 _
          · exact hm rid r h
      | join room_id name pid now =>
          intro rid r hmem
          rcases join_room_cases m room_id name pid now with
            ⟨_, hj⟩ | ⟨room, _, _, hj⟩ | ⟨room, hl, hlt, hj⟩ <;>
            simp only [applyOp, hj] at hmem
          · exact hm rid r hmem
          · exact hm rid r hmem
          · rcases mem_alInsert hmem with ⟨h1, h2⟩ | h
            · subst h2
              have hroom := hm room_id room (alLookup_mem hl)
              refine ⟨?_, fun hw pr hpr => ?_, hroom.2.2⟩
              · calc (alInsert pid
                    { id := pid, name := name, joined_at := now }
                      room.players).length ≤ room.players.length + 1 :=
                    alInsert_length_le _ _ _
                  _ ≤ 2 := by omega
              · rcases mem_alInsert (by exact hpr) with ⟨h3, h4⟩ | h5
                · rw [h4]
                · exact hroom.2.1 hw pr h5
            · exact hm rid r h
      | start room_id qs now =>
          intro rid r hmem
          rcases start_room_cases m room_id qs now with
            ⟨_, hj⟩ | ⟨room, _, _, hj⟩ | ⟨room, hl, hw, hj⟩ <;>
            simp only [applyOp, hj] at hmem
          · exact hm rid r hmem
          · exact hm rid r hmem
          · rcases mem_alInsert hmem with ⟨h1, h2⟩ | h
            · subst h2
              have hroom := hm room_id room (alLookup_mem hl)
              have he := ensure_runner_preserves
                ({ room with
                   questions := qs, current_question_index := 0,
                   started_at := some now, status := RoomStatus.in_progress,
                   last_activity := now })
              refine ⟨?_, fun hw2 => ?_, ?_⟩
              · rw [he.2.2.2.2.1]; exact hroom.1
              · rw [he.2.2.1] at hw2; simp at hw2
              · rw [he.2.2.2.1]; exact hroom.2.2
            · exact hm rid r h
      | submit room_id player_id answer_index now =>
          intro rid r hmem
          cases hl : alLookup room_id m.rooms with
          | none => simp only [applyOp, hl] at hmem; exact hm rid r hmem
          | some room =>
              simp only [applyOp, hl] at hmem
              rcases mem_alInsert hmem with ⟨h1, h2⟩ | h
              · subst h2
                have hroom := hm room_id room (alLookup_mem hl)
                have hp := submit_answer_preserves room player_id answer_index now
                refine ⟨?_, fun hw pr hpr => ?_, ?_⟩
                · rw [hp.2.2.2.2]; exact hroom.1
                · have hworig : room.status = RoomStatus.waiting := by
                    rw [← hp.2.2.1]; exact hw
                  have hid : submit_answer room player_id answer_index now =
                      (room, [], SubmitOutcome.ignored) :=
                    submit_answer_not_in_progress room player_id answer_index now
                      (by rw [hworig]; simp)
                  rw [hid] at hpr
                  exact hroom.2.1 hworig pr hpr
                · rw [hp.2.2.2.1]; exact hroom.2.2
              · exact hm rid r h
      | setReady room_id player_id ready now =>
          intro rid r hmem
          rcases set_ready_cases m room_id player_id ready now with
            hj | hj | ⟨room, p, hl, hpl, hj⟩ <;>
            simp only [applyOp, hj] at hmem
          · exact hm rid r hmem
          · exact hm rid r hmem
          · rcases mem_alInsert hmem with ⟨h1, h2⟩ | h
            · subst h2
              have hroom := hm room_id room (alLookup_mem hl)
              refine ⟨?_, fun hw pr hpr => ?_, hroom.2.2⟩
              · simpa [alInsert_length_of_lookup _ hpl] using hroom.1
              · rcases mem_alInsert (by exact hpr) with ⟨h3, h4⟩ | h5
                · rw [h4]
                  exact hroom.2.1 hw (player_id, p) (alLookup_mem hpl)
                · exact hroom.2.1 hw pr h5
            · exact hm rid r h
      | runLoop room_id envs now =>
          intro rid r hmem
          cases hl : alLookup room_id m.rooms with
          | none => simp only [applyOp, hl] at hmem; exact hm rid r hmem
          | some room =>
              simp only [applyOp, hl] at hmem
              rcases mem_alInsert hmem with ⟨h1, h2⟩ | h
              · subst h2
                have hroom := hm room_id room (alLookup_mem hl)
                have hp := runRoomFuel_preserves
                  (room.questions.length - room.current_question_index + 1)
                  room envs now
                refine ⟨?_, fun hw pr hpr => ?_, ?_⟩
                · rw [run_room, hp.1]; exact hroom.1
                · have hworig : room.status = RoomStatus.waiting := by
                    rw [run_room] at hw
                    rcases hp.2.2.1 with h3 | h3
                    · rw [← h3]; exact hw
                    · rw [hw] at h3; simp at h3
                  have h4 : (run_room room envs now).1.players = room.players := by
                    rw [run_room]
                    exact hp.2.2.2 (by rw [hworig]; simp)
                  rw [h4] at hpr
                  exact hroom.2.1 hworig pr hpr
                · rw [run_room, hp.2.1]; exact hroom.2.2
              · exact hm rid r h
      | sweep now connections =>
          intro rid r hmem
          dsimp only [applyOp, cleanup_pass] at hmem
          exact hm rid r (List.mem_of_mem_filter hmem)
  exact key

/-! ### Claims about answer submission -/

/-- C1: while a question is open, the first correct submission from a
player who has not yet answered returns ok/correct, closes the question,
and bumps exactly the submitter's score by one; once the question is
closed every submission is 'ignored' and changes nothing. -/
theorem C1_first_correct_wins :
    (∀ (room : Room) (pid : String) (p : Player) (q : QuizQuestion)
        (ans now : Int),
      room.status = RoomStatus.in_progress →
      room.question_open = true →
      room.questions[room.current_question_index]? = some q →
      pid ∉ room.answered →
      alLookup pid room.players = some p →
      ans = q.correct_index →
      (submit_answer room pid ans now).2.2 = SubmitOutcome.ok true ∧
      (submit_answer room pid ans now).1.question_open = false ∧
      alLookup pid (submit_answer room pid ans now).1.players =
        some { p with score := p.score + 1 } ∧
      (∀ pid2, pid2 ≠ pid →
        alLookup pid2 (submit_answer room pid ans now).1.players =
          alLookup pid2 room.players)) ∧
    (∀ (room : Room) (pid : String) (ans now : Int),
      room.question_open = false →
      submit_answer room pid ans now = (room, [], SubmitOutcome.ignored)) := by
  constructor
  · intro room pid p q ans now h1 h2 hq h4 hp h6
    subst h6
    have hcond : ¬ (room.status ≠ RoomStatus.in_progress ∨
        room.question_open = false) := by simp [h1, h2]
    refine ⟨?_, ?_, ?_, ?_⟩
    · simp [submit_answer, hcond, hq, h4, hp]
    · simp [submit_answer, hcond, hq, h4, hp]
    · simp [submit_answer, hcond, hq, h4, hp, alLookup_alInsert_self]
    · intro pid2 hne
      simp [submit_answer, hcond, hq, h4, hp, alLookup_alInsert_ne _ hne]
  · intro room pid ans now h
    rw [submit_answer, if_pos (Or.inr h)]

theorem C1_first_correct_wins_witness :
    (submit_answer sampleRoom "bbbbbb" 1 7).2.2 = SubmitOutcome.ok true ∧
    (submit_answer sampleRoom "bbbbbb" 1 7).1.question_open = false ∧
    alLookup "bbbbbb" (submit_answer sampleRoom "bbbbbb" 1 7).1.players =
      some { samplePlayerB with score := samplePlayerB.score + 1 } := by
  have h := C1_first_correct_wins.1 sampleRoom "bbbbbb" samplePlayerB sampleQ 1 7
    rfl rfl rfl (by decide) rfl rfl
  exact ⟨h.1, h.2.1, h.2.2.1⟩

/-- C2: a duplicate submission (player already in the answered set of the
open question) is 'ignored' with no state change whatever the answer; and
opening a new question clears the answered set. -/
theorem C2_duplicate_suppressed :
    (∀ (room : Room) (pid : String) (q : QuizQuestion) (ans now : Int),
      room.status = RoomStatus.in_progress →
      room.question_open = true →
      room.questions[room.current_question_index]? = some q →
      pid ∈ room.answered →
      submit_answer room pid ans now = (room, [], SubmitOutcome.ignored)) ∧
    (∀ (room : Room) (q : QuizQuestion) (now : Int),
      (openQuestion room q now).1.answered = []) := by
  constructor
  · intro room pid q ans now h1 h2 hq h4
    simp [submit_answer, h1, h2, hq, h4]
  · intro room q now
    rfl

theorem C2_duplicate_suppressed_witness :
    submit_answer sampleRoomDup "bbbbbb" 1 7 =
      (sampleRoomDup, [], SubmitOutcome.ignored) ∧
    (openQuestion sampleRoomDup sampleQ 9).1.answered = [] := by
  exact ⟨C2_duplicate_suppressed.1 sampleRoomDup "bbbbbb" sampleQ 1 7
      rfl rfl rfl (by decide),
    C2_duplicate_suppressed.2 sampleRoomDup sampleQ 9⟩

/-- C3: an incorrect submission returns ok/incorrect and changes no
player; the question stays open unless the submission makes the answered
count reach the player count, in which case it closes with an
'all_answered' reveal. -/
theorem C3_incorrect_answer :
    ∀ (room : Room) (pid : String) (q : QuizQuestion) (ans now : Int),
      room.status = RoomStatus.in_progress →
      room.question_open = true →
      room.questions[room.current_question_index]? = some q →
      pid ∉ room.answered →
      ans ≠ q.correct_index →
      (submit_answer room pid ans now).2.2 = SubmitOutcome.ok false ∧
      (submit_answer room pid ans now).1.players = room.players ∧
      (room.answered.length + 1 ≥ room.players.length →
        (submit_answer room pid ans now).1.question_open = false ∧
        (submit_answer room pid ans now).2.1 =
          [Event.answerIncorrect room.current_question_index pid,
           Event.allAnswered room.current_question_index q.correct_index
             (scoreboard (submit_answer room pid ans now).1)]) ∧
      (room.answered.length + 1 < room.players.length →
        (submit_answer room pid ans now).1.question_open = true ∧
        (submit_answer room pid ans now).2.1 =
          [Event.answerIncorrect room.current_question_index pid]) := by
  intro room pid q ans now h1 h2 hq h4 h6
  have hcond : ¬ (room.status ≠ RoomStatus.in_progress ∨
      room.question_open = false) := by simp [h1, h2]
  by_cases hc : room.answered.length + 1 ≥ room.players.length
  · refine ⟨?_, ?_, fun _ => ⟨?_, ?_⟩, fun h => absurd hc (by omega)⟩ <;>
      simp [submit_answer, hcond, hq, h4, h6, hc]
  · have hlt : room.players.length > room.answered.length + 1 := by omega
    refine ⟨?_, ?_, fun h => absurd h hc, fun _ => ⟨?_, ?_⟩⟩ <;>
      simp [submit_answer, hcond, h1, hq, h4, h6, hc, h2, Nat.not_le_of_lt hlt]

theorem C3_incorrect_answer_witness :
    (submit_answer sampleRoom "bbbbbb" 0 7).2.2 = SubmitOutcome.ok false ∧
    (submit_answer sampleRoom "bbbbbb" 0 7).1.players = sampleRoom.players ∧
    (submit_answer sampleRoom "bbbbbb" 0 7).1.question_open = true := by
  have h := C3_incorrect_answer sampleRoom "bbbbbb" sampleQ 0 7
    rfl rfl rfl (by decide) (by decide)
  exact ⟨h.1, h.2.1, (h.2.2.2 (by decide)).1⟩

/-- C9: a submission from a player id that is not in the roster is not
rejected: a correct one is accepted, closes the question, and leaves the
roster (hence every score) untouched. -/
theorem C9_unknown_player_accepted :
    ∀ (room : Room) (pid : String) (q : QuizQuestion) (ans now : Int),
      room.status = RoomStatus.in_progress →
      room.question_open = true →
      room.questions[room.current_question_index]? = some q →
      pid ∉ room.answered →
      alLookup pid room.players = none →
      ans = q.correct_index →
      (submit_answer room pid ans now).2.2 = SubmitOutcome.ok true ∧
      (submit_answer room pid ans now).1.question_open = false ∧
      (submit_answer room pid ans now).1.players = room.players := by
  intro room pid q ans now h1 h2 hq h4 hp h6
  subst h6
  simp [submit_answer, h1, h2, hq, h4, hp]

theorem C9_unknown_player_accepted_witness :
    (submit_answer sampleRoom "cccccc" 1 7).2.2 = SubmitOutcome.ok true ∧
    (submit_answer sampleRoom "cccccc" 1 7).1.question_open = false ∧
    (submit_answer sampleRoom "cccccc" 1 7).1.players = sampleRoom.players := by
  exact C9_unknown_player_accepted sampleRoom "cccccc" sampleQ 1 7
    rfl rfl rfl (by decide) (by decide) rfl

/-! ### Claims about the room lifecycle -/

/-- C4: `start_room` fails with room_not_found on an unknown id, is a
complete no-op on a non-WAITING room, and on a WAITING room assigns the
questions, resets the index, stamps `started_at`, moves to IN_PROGRESS and
spawns a game-loop task only when none is already running. -/
theorem C4_start_room_idempotent :
    ∀ (m : Manager) (room_id : String) (qs : List QuizQuestion) (now : Int),
      (alLookup room_id m.rooms = none →
        start_room m room_id qs now = Except.error "room_not_found") ∧
      (∀ room, alLookup room_id m.rooms = some room →
        room.status ≠ RoomStatus.waiting →
        start_room m room_id qs now = Except.ok m) ∧
      (∀ room, alLookup room_id m.rooms = some room →
        room.status = RoomStatus.waiting →
        ∃ m1, start_room m room_id qs now = Except.ok m1 ∧
          ∃ room2, alLookup room_id m1.rooms = some room2 ∧
            room2.questions = qs ∧
            room2.current_question_index = 0 ∧
            room2.started_at = some now ∧
            room2.status = RoomStatus.in_progress ∧
            room2.runner_task = some TaskStatus.running ∧
            room2.spawned = (if room.runner_task = some TaskStatus.running
              then room.spawned else room.spawned + 1)) := by
  intro m room_id qs now
  refine ⟨?_, ?_, ?_⟩
  · intro hl
    rcases start_room_cases m room_id qs now with
      ⟨_, h2⟩ | ⟨room2, h1, _, _⟩ | ⟨room2, h1, _, _⟩
    · exact h2
    · rw [hl] at h1; cases h1
    · rw [hl] at h1; cases h1
  · intro room hl hst
    rcases start_room_cases m room_id qs now with
      ⟨h1, _⟩ | ⟨room2, h1, h3, h4⟩ | ⟨room2, h1, h3, h4⟩
    · rw [hl] at h1; cases h1
    · exact h4
    · rw [hl] at h1
      injection h1 with h5
      subst h5
      exact absurd h3 hst
  · intro room hl hw
    rcases start_room_cases m room_id qs now with
      ⟨h1, _⟩ | ⟨room2, h1, h3, h4⟩ | ⟨room2, h1, h3, h4⟩
    · rw [hl] at h1; cases h1
    · rw [hl] at h1
      injection h1 with h5
      subst h5
      exact absurd hw h3
    · rw [hl] at h1
      injection h1 with h5
      subst h5
      have he := ensure_runner_preserves
        ({ room with
           questions := qs, current_question_index := 0,
           started_at := some now, status := RoomStatus.in_progress,
           last_activity := now })
      refine ⟨_, h4, _, alLookup_alInsert_self _ _ _, ?_, ?_, ?_, ?_, ?_, ?_⟩
      · rw [he.1]
      · rw [he.2.1]
      · rw [he.2.2.2.2.2.2.2]
      · rw [he.2.2.1]
      · exact he.2.2.2.2.2.1
      · rw [he.2.2.2.2.2.2.1]

theorem C4_start_room_idempotent_witness :
    ∃ m1, start_room waitingManager "r00002" [sampleQ] 3 = Except.ok m1 ∧
      ∃ room2, alLookup "r00002" m1.rooms = some room2 ∧
        room2.questions = [sampleQ] ∧
        room2.current_question_index = 0 ∧
        room2.started_at = some 3 ∧
        room2.status = RoomStatus.in_progress ∧
        room2.runner_task = some TaskStatus.running ∧
        room2.spawned = (if waitingRoom.runner_task = some TaskStatus.running
          then waitingRoom.spawned else waitingRoom.spawned + 1) :=
  (C4_start_room_idempotent waitingManager "r00002" [sampleQ] 3).2.2
    waitingRoom rfl rfl

/-- C5: every reachable room has at most two players, and `join_room`
fails with room_not_found on an unknown id and with room_full once a room
holds two players. -/
theorem C5_capacity :
    (∀ (ops : List Op) (rid : String) (r : Room),
      (rid, r) ∈ (applyOps ops).rooms → r.players.length ≤ 2) ∧
    (∀ (m : Manager) (room_id name pid : String) (now : Int),
      alLookup room_id m.rooms = none →
      join_room m room_id name pid now = Except.error "room_not_found") ∧
    (∀ (m : Manager) (room_id name pid : String) (now : Int) (room : Room),
      alLookup room_id m.rooms = some room → room.players.length ≥ 2 →
      join_room m room_id name pid now = Except.error "room_full") := by
  refine ⟨?_, ?_, ?_⟩
  · intro ops rid r h
    exact (goodRoom_reachable ops rid r h).1
  · intro m room_id name pid now hl
    rcases join_room_cases m room_id name pid now with
      ⟨_, h2⟩ | ⟨room2, h1, _, _⟩ | ⟨room2, h1, _, _⟩
    · exact h2
    · rw [hl] at h1; cases h1
    · rw [hl] at h1; cases h1
  · intro m room_id name pid now room hl hfull
    rcases join_room_cases m room_id name pid now with
      ⟨h1, _⟩ | ⟨room2, h1, h3, h4⟩ | ⟨room2, h1, h3, h4⟩
    · rw [hl] at h1; cases h1
    · exact h4
    · rw [hl] at h1
      injection h1 with h5
      subst h5
      omega

theorem C5_capacity_witness :
    demoCreatedRoom.players.length ≤ 2 ∧
    join_room fullManager "zzzzzz" "C" "cccccc" 4 =
      Except.error "room_not_found" ∧
    join_room fullManager "r00003" "C" "cccccc" 4 =
      Except.error "room_full" :=
  ⟨C5_capacity.1 demoOps "r00001" demoCreatedRoom (by decide),
   C5_capacity.2.1 fullManager "zzzzzz" "C" "cccccc" 4 rfl,
   C5_capacity.2.2 fullManager "r00003" "C" "cccccc" 4 fullRoom rfl (by decide)⟩

/-- C8: `_build_spec` clamps the per-question time limit to at least five
seconds, so every reachable room's spec satisfies the bound. -/
theorem C8_time_limit :
    (∀ req : CreateRoomRequest, 5 ≤ (build_spec req).time_per_question_sec) ∧
    (∀ (ops : List Op) (rid : String) (r : Room),
      (rid, r) ∈ (applyOps ops).rooms → 5 ≤ r.spec.time_per_question_sec) := by
  constructor
  · intro req
    exact le_max_left 5 _
  · intro ops rid r h
    exact (goodRoom_reachable ops rid r h).2.2

theorem C8_time_limit_witness :
    5 ≤ (build_spec shortTimerReq).time_per_question_sec ∧
    5 ≤ demoCreatedRoom.spec.time_per_question_sec :=
  ⟨C8_time_limit.1 _,
   C8_time_limit.2 demoOps "r00001" demoCreatedRoom (by decide)⟩

/-- With enough fuel and no cancellation, the loop always terminates in
the ENDED state with a terminal broadcast: normal exhaustion of the
question list and an escaping exception both funnel into `_end_room`. -/
theorem runRoomFuel_ends :
    ∀ (fuel : Nat) (room : Room) (envs : List Iter) (now : Int),
      room.questions.length - room.current_question_index < fuel →
      (∀ it ∈ envs, it.signal ≠ IterSignal.cancel) →
      (runRoomFuel fuel room envs now).2.2 = LoopResult.ended ∧
      (runRoomFuel fuel room envs now).1.status = RoomStatus.ended ∧
      (runRoomFuel fuel room envs now).1.ended_at = some now ∧
      ∃ e ∈ (runRoomFuel fuel room envs now).2.1, e.isEnd = true := by
  intro fuel
  induction fuel with
  | zero => intro room envs now hfuel _; omega
  | succ fuel ih =>
      intro room envs now hfuel hnc
      have hsig : (headIter envs).1.signal ≠ IterSignal.cancel := by
        cases envs with
        | nil => simp [headIter]
        | cons it rest => exact hnc it (List.mem_cons_self _ _)
      rw [runRoomFuel]
      match hs : (headIter envs).1.signal with
      | IterSignal.cancel => exact absurd hs hsig
      | IterSignal.raiseExc =>
          exact ⟨rfl, rfl, rfl, (end_room room now).2, List.mem_singleton_self _,
            rfl⟩
      | IterSignal.normal =>
          dsimp only
          split
          · rename_i hlt
            have hrest : ∀ it ∈ (headIter envs).2,
                it.signal ≠ IterSignal.cancel := by
              cases envs with
              | nil => intro x hx; simp [headIter] at hx
              | cons it rest =>
                  intro x hx
                  exact hnc x (List.mem_cons_of_mem _ hx)
            have hoq := openQuestion_preserves room
              (room.questions.get ⟨room.current_question_index, hlt⟩) now
            have hsub := processSubs_preserves (headIter envs).1.subs
              (openQuestion room
                (room.questions.get ⟨room.current_question_index, hlt⟩) now).1 now
            set room2 := (processSubs (openQuestion room
              (room.questions.get ⟨room.current_question_index, hlt⟩) now).1
              (headIter envs).1.subs now).1 with hroom2
            have hadv := iterAdvance_preserves room2 now
            have hq4 : (iterAdvance room2 now).questions = room.questions := by
              rw [hadv.2.1, hsub.1, hoq.2.1]
            have hi4 : (iterAdvance room2 now).current_question_index =
                room.current_question_index + 1 := by
              rw [hadv.2.2.2.2, hsub.2.1, hoq.2.2.1]
            have hrec := ih (iterAdvance room2 now) (headIter envs).2 now
              (by rw [hq4, hi4]; omega) hrest
            refine ⟨hrec.1, hrec.2.1, hrec.2.2.1, ?_⟩
            obtain ⟨e, he, hee⟩ := hrec.2.2.2
            exact ⟨e, by
              refine List.mem_append_right _ ?_
              exact he, hee⟩
          · exact ⟨rfl, rfl, rfl, (end_room room now).2,
              List.mem_singleton_self _, rfl⟩

/-- C6: any escaping exception in the game loop is caught at the top and
converted into a graceful ENDED transition with the terminal `end`
broadcast; hence a started, never-cancelled room always reaches ENDED.
`envs` may inject an exception (`raiseExc`) at any iteration; only
cancellation is excluded. -/
theorem C6_loop_exception_ends :
    ∀ (room : Room) (envs : List Iter) (now : Int),
      (∀ it ∈ envs, it.signal ≠ IterSignal.cancel) →
      (run_room room envs now).2.2 = LoopResult.ended ∧
      (run_room room envs now).1.status = RoomStatus.ended ∧
      (run_room room envs now).1.ended_at = some now ∧
      ∃ e ∈ (run_room room envs now).2.1, e.isEnd = true := by
  intro room envs now hnc
  exact runRoomFuel_ends _ room envs now (by omega) hnc

theorem C6_loop_exception_ends_witness :
    (run_room sampleRoom [{ signal := IterSignal.raiseExc }] 9).2.2 =
      LoopResult.ended ∧
    (run_room sampleRoom [{ signal := IterSignal.raiseExc }] 9).1.status =
      RoomStatus.ended ∧
    (run_room sampleRoom [{ signal := IterSignal.raiseExc }] 9).1.ended_at =
      some 9 ∧
    ∃ e ∈ (run_room sampleRoom [{ signal := IterSignal.raiseExc }] 9).2.1,
      e.isEnd = true :=
  C6_loop_exception_ends sampleRoom [{ signal := IterSignal.raiseExc }] 9
    (by decide)

/-- C7: the sweep decision is exactly "ENDED and ended longer ago than the
window (default 600 s), or idle longer than the window with zero live
connections" (for rooms whose `ended_at`, when ENDED, is set and not ahead
of `last_activity`, as `_end_room` guarantees); every deleted room leaves
the registry with its running loop task cancelled first, and every other
room is kept untouched. -/
theorem C7_idle_sweeper :
    initManager.idle_seconds = 600 ∧
    ∀ (m : Manager) (now : Int) (connections : String → Nat) (rid : String)
      (room : Room),
      (rid, room) ∈ m.rooms →
      (room.status = RoomStatus.ended →
        ∃ t, room.ended_at = some t ∧ t ≤ room.last_activity) →
      ((shouldDelete m.idle_seconds now (connections rid) room = true ↔
         ((room.status = RoomStatus.ended ∧
            ∃ t, room.ended_at = some t ∧ now - t > m.idle_seconds) ∨
          (now - room.last_activity > m.idle_seconds ∧ connections rid = 0))) ∧
       (shouldDelete m.idle_seconds now (connections rid) room = true →
          (rid, room) ∉ (cleanup_pass m now connections).1.rooms ∧
          (rid, cancelRunner room) ∈ (cleanup_pass m now connections).2 ∧
          (cancelRunner room).runner_task ≠ some TaskStatus.running) ∧
       (shouldDelete m.idle_seconds now (connections rid) room = false →
          (rid, room) ∈ (cleanup_pass m now connections).1.rooms)) := by
  refine ⟨rfl, ?_⟩
  intro m now connections rid room hmem hEnd
  refine ⟨?_, ?_, ?_⟩
  · cases hs : room.status with
    | ended =>
        cases he : room.ended_at with
        | none =>
            obtain ⟨t0, ht0, _⟩ := hEnd hs
            rw [he] at ht0
            cases ht0
        | some t =>
            obtain ⟨t0, ht0, hle⟩ := hEnd hs
            rw [he] at ht0
            injection ht0 with ht1
            subst ht1
            simp only [shouldDelete, hs, he, decide_eq_true_eq]
            constructor
            · intro h
              exact Or.inl ⟨trivial, t, rfl, h⟩
            · rintro (⟨_, t2, ht2, h⟩ | ⟨h1, _⟩)
              · injection ht2 with ht3
                omega
              · omega
    | waiting =>
        cases he : room.ended_at <;> simp [shouldDelete, hs, he]
    | in_progress =>
        cases he : room.ended_at <;> simp [shouldDelete, hs, he]
  · intro hd
    refine ⟨?_, ?_, ?_⟩
    · intro hkept
      dsimp only [cleanup_pass] at hkept
      have h2 := (List.mem_filter.mp hkept).2
      rw [hd] at h2
      simp at h2
    · dsimp only [cleanup_pass]
      exact List.mem_map.mpr ⟨(rid, room), List.mem_filter.mpr ⟨hmem, hd⟩, rfl⟩
    · cases hr : room.runner_task with
      | none => simp [cancelRunner, hr]
      | some ts => cases ts <;> simp [cancelRunner, hr]
  · intro hd
    dsimp only [cleanup_pass]
    exact List.mem_filter.mpr ⟨hmem, by simp [hd]⟩

theorem C7_idle_sweeper_witness :
    shouldDelete sweepManager.idle_seconds 1000
      ((fun _ => 0) "r00004") endedRoom = true ∧
    ("r00004", endedRoom) ∉
      (cleanup_pass sweepManager 1000 (fun _ => 0)).1.rooms ∧
    ("r00004", cancelRunner endedRoom) ∈
      (cleanup_pass sweepManager 1000 (fun _ => 0)).2 ∧
    (cancelRunner endedRoom).runner_task ≠ some TaskStatus.running := by
  have h := C7_idle_sweeper.2 sweepManager 1000 (fun _ => 0) "r00004" endedRoom
    (by decide) (fun _ => ⟨100, rfl, by decide⟩)
  have hd : shouldDelete sweepManager.idle_seconds 1000
      ((fun _ => 0) "r00004") endedRoom = true := by decide
  exact ⟨hd, (h.2.1 hd).1, (h.2.1 hd).2.1, (h.2.1 hd).2.2⟩

/-- A game-loop run over an empty question list calls `_end_room` in its
first iteration and returns. -/
theorem run_room_no_questions (room1 : Room) (now : Int)
    (hq : room1.questions = []) (hi : room1.current_question_index = 0) :
    run_room room1 [] now =
      ((end_room room1 now).1, [(end_room room1 now).2], LoopResult.ended) := by
  rw [run_room, hq, hi]
  show runRoomFuel (Nat.succ 0) room1 [] now = _
  rw [runRoomFuel]
  dsimp only [headIter]
  rw [dif_neg (by simp [hq, hi])]

/-- C10: starting a WAITING room with an empty question list is accepted,
the room moves to IN_PROGRESS, and its loop immediately ends it: ENDED
with `ended_at` stamped, a single terminal `end` broadcast whose
scoreboard shows score 0 for every player, and no `question` broadcast. -/
theorem C10_empty_question_start :
    ∀ (ops : List Op) (room_id : String) (room : Room) (now : Int),
      alLookup room_id (applyOps ops).rooms = some room →
      room.status = RoomStatus.waiting →
      ∃ m1 room1,
        start_room (applyOps ops) room_id [] now = Except.ok m1 ∧
        alLookup room_id m1.rooms = some room1 ∧
        room1.status = RoomStatus.in_progress ∧
        (run_room room1 [] now).2.2 = LoopResult.ended ∧
        (run_room room1 [] now).1.status = RoomStatus.ended ∧
        (run_room room1 [] now).1.ended_at = some now ∧
        (run_room room1 [] now).2.1 =
          [Event.endEv (toState (run_room room1 [] now).1)
            (scoreboard (run_room room1 [] now).1)] ∧
        (∀ e ∈ (run_room room1 [] now).2.1, e.isQuestion = false) ∧
        (∀ row ∈ scoreboard (run_room room1 [] now).1, row.2.2 = 0) := by
  intro ops room_id room now hl hw
  rcases start_room_cases (applyOps ops) room_id [] now with
    ⟨h1, _⟩ | ⟨room2, h1, h3, _⟩ | ⟨room2, h1, h3, h4⟩
  · rw [hl] at h1; cases h1
  · rw [hl] at h1
    injection h1 with h5
    subst h5
    exact absurd hw h3
  · rw [hl] at h1
    injection h1 with h5
    subst h5
    have he := ensure_runner_preserves
      ({ room with
         questions := ([] : List QuizQuestion), current_question_index := 0,
         started_at := some now, status := RoomStatus.in_progress,
         last_activity := now })
    set room1 := ensure_runner
      ({ room with
         questions := ([] : List QuizQuestion), current_question_index := 0,
         started_at := some now, status := RoomStatus.in_progress,
         last_activity := now }) with hroom1
    have hq1 : room1.questions = [] := by rw [hroom1, he.1]
    have hi1 : room1.current_question_index = 0 := by rw [hroom1, he.2.1]
    have hplayers : room1.players = room.players := by
      rw [hroom1, he.2.2.2.2.1]
    have hrr := run_room_no_questions room1 now hq1 hi1
    refine ⟨_, room1, h4, alLookup_alInsert_self _ _ _, ?_, ?_, ?_, ?_, ?_,
      ?_, ?_⟩
    · rw [hroom1, he.2.2.1]
    · rw [hrr]
    · rw [hrr]; rfl
    · rw [hrr]; rfl
    · rw [hrr]; rfl
    · intro e hee
      rw [hrr] at hee
      simp only [List.mem_singleton] at hee
      rw [hee]
      rfl
    · intro row hrow
      rw [hrr] at hrow
      dsimp only [scoreboard, end_room] at hrow
      rw [hplayers] at hrow
      obtain ⟨pr, hpr, hrw⟩ := List.mem_map.mp hrow
      have h0 := (goodRoom_reachable ops room_id room (alLookup_mem hl)).2.1
        hw pr hpr
      rw [← hrw]
      exact h0

theorem C10_empty_question_start_witness :
    ∃ m1 room1,
      start_room (applyOps demoOps) "r00001" [] 5 = Except.ok m1 ∧
      alLookup "r00001" m1.rooms = some room1 ∧
      room1.status = RoomStatus.in_progress ∧
      (run_room room1 [] 5).2.2 = LoopResult.ended ∧
      (run_room room1 [] 5).1.status = RoomStatus.ended ∧
      (run_room room1 [] 5).1.ended_at = some 5 ∧
      (run_room room1 [] 5).2.1 =
        [Event.endEv (toState (run_room room1 [] 5).1)
          (scoreboard (run_room room1 [] 5).1)] ∧
      (∀ e ∈ (run_room room1 [] 5).2.1, e.isQuestion = false) ∧
      (∀ row ∈ scoreboard (run_room room1 [] 5).1, row.2.2 = 0) :=
  C10_empty_question_start demoOps "r00001" demoCreatedRoom 5 (by decide) rfl

end Quiz
